import Mathlib

/-!
Verification of the schema/type layer of the cozo EAV engine:
the `Typing` algebra, its display form and parser, the coercion
engine (`src/data/typing.rs`), and the JSON serialization boundary
(`src/data/json.rs`).
-/

set_option maxHeartbeats 1000000

namespace Cozo

/-- Modelled from the spec: a finite 64-bit float payload, carried opaquely
by its bit pattern. The coercion engine and the JSON boundary never inspect
the payload, only the variant tag, so an opaque carrier is faithful;
non-finite floats (NaN, infinities) are outside this model. -/
structure F64 where
  bits : Nat
deriving DecidableEq, Repr

/-- Modelled from the spec (§3) and the variants used by `Typing::coerce`:
the runtime `Value` enum of `src/data/value.rs` (file not in scope):
`Null | Bool | Int | Float | Text | Uuid | List`. Payloads of `Text`/`Uuid`
are strings; `Int` is an i64, modelled as `Int`. -/
inductive Value where
  | null
  | bool (b : Bool)
  | int (i : Int)
  | float (f : F64)
  | text (s : String)
  | uuid (u : String)
  | list (l : List Value)

mutual

/-- Boolean equality on `Value`, structurally. -/
def Value.beq : Value → Value → Bool
  | .null, .null => true
  | .bool a, .bool b => a == b
  | .int a, .int b => a == b
  | .float a, .float b => a == b
  | .text a, .text b => a == b
  | .uuid a, .uuid b => a == b
  | .list xs, .list ys => Value.beqList xs ys
  | _, _ => false
termination_by a => sizeOf a

/-- Boolean equality on lists of `Value`. -/
def Value.beqList : List Value → List Value → Bool
  | [], [] => true
  | x :: xs, y :: ys => Value.beq x y && Value.beqList xs ys
  | _, _ => false
termination_by xs => sizeOf xs

end

theorem valueBeqStrong : ∀ n,
    (∀ a b : Value, sizeOf a ≤ n → (Value.beq a b = true ↔ a = b)) ∧
    (∀ xs ys : List Value, sizeOf xs ≤ n → (Value.beqList xs ys = true ↔ xs = ys)) := by
  intro n
  induction n with
  | zero =>
    constructor
    · intro a b h; cases a <;> simp at h
    · intro xs ys h; cases xs <;> simp at h
  | succ n ih =>
    obtain ⟨ihV, ihL⟩ := ih
    constructor
    · intro a b hsz
      cases a <;> cases b <;>
        first
        | (simp [Value.beq]; done)
        | (rename_i x y
           rw [show Value.beq (.list x) (.list y) = Value.beqList x y from by simp [Value.beq],
               ihL x y (by simp at hsz; omega)]
           simp)
    · intro xs ys hsz
      rcases xs with _ | ⟨x, xs⟩ <;> rcases ys with _ | ⟨y, ys⟩ <;>
        try (simp [Value.beqList]; done)
      simp only [Value.beqList, Bool.and_eq_true]
      rw [ihV x y (by simp at hsz; omega), ihL xs ys (by simp at hsz; omega)]
      simp

theorem valueBeqIff (a b : Value) : (Value.beq a b = true) ↔ a = b :=
  (valueBeqStrong (sizeOf a)).1 a b (Nat.le_refl _)

instance : DecidableEq Value := fun a b => decidable_of_iff _ (valueBeqIff a b)

/-- The declared-type algebra `Typing` of `src/data/typing.rs` lines 29-41. -/
inductive Typing where
  | any
  | bool
  | int
  | float
  | text
  | uuid
  | nullable (t : Typing)
  | homogeneous (t : Typing)
  | unnamedTuple (ts : List Typing)
  | namedTuple (ts : List (String × Typing))

mutual

/-- Boolean equality on `Typing`, structurally. -/
def Typing.beq : Typing → Typing → Bool
  | .any, .any => true
  | .bool, .bool => true
  | .int, .int => true
  | .float, .float => true
  | .text, .text => true
  | .uuid, .uuid => true
  | .nullable a, .nullable b => Typing.beq a b
  | .homogeneous a, .homogeneous b => Typing.beq a b
  | .unnamedTuple xs, .unnamedTuple ys => Typing.beqList xs ys
  | .namedTuple xs, .namedTuple ys => Typing.beqNamed xs ys
  | _, _ => false
termination_by a => sizeOf a

/-- Boolean equality on lists of `Typing`. -/
def Typing.beqList : List Typing → List Typing → Bool
  | [], [] => true
  | x :: xs, y :: ys => Typing.beq x y && Typing.beqList xs ys
  | _, _ => false
termination_by xs => sizeOf xs

/-- Boolean equality on named-tuple entry lists. -/
def Typing.beqNamed : List (String × Typing) → List (String × Typing) → Bool
  | [], [] => true
  | (k1, t1) :: xs, (k2, t2) :: ys => k1 == k2 && Typing.beq t1 t2 && Typing.beqNamed xs ys
  | _, _ => false
termination_by xs => sizeOf xs

end

theorem typingBeqStrong : ∀ n,
    (∀ a b : Typing, sizeOf a ≤ n → (Typing.beq a b = true ↔ a = b)) ∧
    (∀ xs ys : List Typing, sizeOf xs ≤ n → (Typing.beqList xs ys = true ↔ xs = ys)) ∧
    (∀ xs ys : List (String × Typing), sizeOf xs ≤ n →
      (Typing.beqNamed xs ys = true ↔ xs = ys)) := by
  intro n
  induction n with
  | zero =>
    refine ⟨?_, ?_, ?_⟩
    · intro a b h; cases a <;> simp at h
    · intro xs ys h; cases xs <;> simp at h
    · intro xs ys h; cases xs <;> simp at h
  | succ n ih =>
    obtain ⟨ihT, ihL, ihN⟩ := ih
    refine ⟨?_, ?_, ?_⟩
    · intro a b hsz
      cases a <;> cases b <;>
        first
        | (simp [Typing.beq]; done)
        | (rename_i x y
           rw [show Typing.beq (.nullable x) (.nullable y) = Typing.beq x y
                 from by simp [Typing.beq],
               ihT x y (by simp at hsz; omega)]
           simp)
        | (rename_i x y
           rw [show Typing.beq (.homogeneous x) (.homogeneous y) = Typing.beq x y
                 from by simp [Typing.beq],
               ihT x y (by simp at hsz; omega)]
           simp)
        | (rename_i x y
           rw [show Typing.beq (.unnamedTuple x) (.unnamedTuple y) = Typing.beqList x y
                 from by simp [Typing.beq],
               ihL x y (by simp at hsz; omega)]
           simp)
        | (rename_i x y
           rw [show Typing.beq (.namedTuple x) (.namedTuple y) = Typing.beqNamed x y
                 from by simp [Typing.beq],
               ihN x y (by simp at hsz; omega)]
           simp)
    · intro xs ys hsz
      rcases xs with _ | ⟨x, xs⟩ <;> rcases ys with _ | ⟨y, ys⟩ <;>
        try (simp [Typing.beqList]; done)
      simp only [Typing.beqList, Bool.and_eq_true]
      rw [ihT x y (by simp at hsz; omega), ihL xs ys (by simp at hsz; omega)]
      simp
    · intro xs ys hsz
      rcases xs with _ | ⟨⟨k1, t1⟩, xs⟩ <;> rcases ys with _ | ⟨⟨k2, t2⟩, ys⟩ <;>
        try (simp [Typing.beqNamed]; done)
      simp only [Typing.beqNamed, Bool.and_eq_true]
      rw [ihT t1 t2 (by simp at hsz; omega), ihN xs ys (by simp at hsz; omega)]
      simp [and_assoc]

theorem typingBeqIff (a b : Typing) : (Typing.beq a b = true) ↔ a = b :=
  (typingBeqStrong (sizeOf a)).1 a b (Nat.le_refl _)

instance : DecidableEq Typing := fun a b => decidable_of_iff _ (typingBeqIff a b)

/-- Embeds `TypingError` of `src/data/typing.rs` lines 9-25. The two transparent
wrappers (pest parse error, text-identifier parse error) carry only a
message here, since their payloads live outside the embedded code. -/
inductive TypingError where
  | notNullViolated (t : Typing)
  | typeMismatch (t : Typing) (v : Value)
  | undefinedType (s : String)
  | parseFail (msg : String)
  | textParseFail (msg : String)
deriving DecidableEq

instance {ε α : Type} [DecidableEq ε] [DecidableEq α] : DecidableEq (Except ε α) :=
  fun a b =>
    match a, b with
    | .ok x, .ok y => if h : x = y then isTrue (by rw [h]) else isFalse (by simp [h])
    | .error x, .error y => if h : x = y then isTrue (by rw [h]) else isFalse (by simp [h])
    | .ok _, .error _ => isFalse (by simp)
    | .error _, .ok _ => isFalse (by simp)

/-- Outcome of a call into the coercion engine: either the Rust `Result`
(`typed` wraps the returned `TypingError`) or a panic (`todo!()` /
`unreachable!()` in the source). -/
inductive CoerceErr where
  | typed (e : TypingError)
  | panicked
deriving DecidableEq

/-- Embeds `Typing::coerce_bool`, `src/data/typing.rs` lines 114-119: accept exactly
a `Bool` value, otherwise `TypeMismatch(self, v)`. -/
def Typing.coerceBool (self : Typing) (v : Value) : Except CoerceErr Value :=
  match v with
  | .bool b => .ok (.bool b)
  | _ => .error (.typed (.typeMismatch self v))

/-- Embeds `Typing::coerce_int`, lines 120-125. -/
def Typing.coerceInt (self : Typing) (v : Value) : Except CoerceErr Value :=
  match v with
  | .int i => .ok (.int i)
  | _ => .error (.typed (.typeMismatch self v))

/-- Embeds `Typing::coerce_float`, lines 126-131. -/
def Typing.coerceFloat (self : Typing) (v : Value) : Except CoerceErr Value :=
  match v with
  | .float f => .ok (.float f)
  | _ => .error (.typed (.typeMismatch self v))

/-- Embeds `Typing::coerce_text`, lines 132-137. -/
def Typing.coerceText (self : Typing) (v : Value) : Except CoerceErr Value :=
  match v with
  | .text s => .ok (.text s)
  | _ => .error (.typed (.typeMismatch self v))

/-- Embeds `Typing::coerce_uuid`, lines 138-143. -/
def Typing.coerceUuid (self : Typing) (v : Value) : Except CoerceErr Value :=
  match v with
  | .uuid u => .ok (.uuid u)
  | _ => .error (.typed (.typeMismatch self v))

/-- Embeds the `matches!(self, Typing::Nullable(_))` test from line 79. -/
def Typing.isNullableForm : Typing → Bool
  | .nullable _ => true
  | _ => false

mutual

/-- Embeds `Typing::coerce`, `src/data/typing.rs` lines 74-113, clause for clause:
`Any` accepts anything first; a `Null` value is accepted iff the declared
type is `Nullable(_)`; `Nullable(t)` recurses on `t`; scalars dispatch to
their `coerce_*` helper; `Homogeneous(t)` maps coercion over a `List` and
rebuilds it, or fails with `TypeMismatch`; the tuple arms are `todo!()`
panics, and the two trailing arms are `unreachable!()` panics. -/
def Typing.coerce (self : Typing) (v : Value) : Except CoerceErr Value :=
  if self = Typing.any then .ok v
  else if v = Value.null then
    if self.isNullableForm then .ok Value.null
    else .error (.typed (.notNullViolated self))
  else
    match self with
    | .nullable t => t.coerce v
    | .bool => Typing.bool.coerceBool v
    | .int => Typing.int.coerceInt v
    | .float => Typing.float.coerceFloat v
    | .text => Typing.text.coerceText v
    | .uuid => Typing.uuid.coerceUuid v
    | .homogeneous t =>
      match v with
      | .list vs =>
        match coerceElems t vs with
        | .ok ws => .ok (.list ws)
        | .error e => .error e
      | _ => .error (.typed (.typeMismatch (.homogeneous t) v))
    | .unnamedTuple _ => .error .panicked
    | .namedTuple _ => .error .panicked
    | .any => .error .panicked
termination_by sizeOf self + sizeOf v

/-- The `vs.into_iter().map(|v| t.coerce(v)).collect::<Result<Vec<_>>>()`
of lines 98-100: element-wise coercion, short-circuiting on the first
failure, preserving order. -/
def coerceElems (t : Typing) (vs : List Value) : Except CoerceErr (List Value) :=
  match vs with
  | [] => .ok []
  | v :: rest =>
    match t.coerce v with
    | .error e => .error e
    | .ok w =>
      match coerceElems t rest with
      | .error e => .error e
      | .ok ws => .ok (w :: ws)
termination_by sizeOf t + sizeOf vs

end

mutual

/-- Embeds `impl Display for Typing`, `src/data/typing.rs` lines 43-71:
the canonical text form — literal keyword for the simple types, `?T` for
nullable, `[T]` for homogeneous lists, parenthesized comma-joined members
for unnamed tuples, brace-delimited comma-joined `"name":T` entries for
named tuples. -/
def Typing.display : Typing → String
  | .any => "Any"
  | .bool => "Bool"
  | .int => "Int"
  | .float => "Float"
  | .text => "Text"
  | .uuid => "Uuid"
  | .nullable t => "?" ++ t.display
  | .homogeneous t => "[" ++ t.display ++ "]"
  | .unnamedTuple ts => "(" ++ displayJoinU ts ++ ")"
  | .namedTuple ts => "\x7b" ++ displayJoinN ts ++ "\x7d"
termination_by t => sizeOf t

/-- Embeds the `collected.join(",")` of the unnamed-tuple display arm. -/
def displayJoinU : List Typing → String
  | [] => ""
  | [t] => t.display
  | t :: ts => t.display ++ "," ++ displayJoinU ts
termination_by ts => sizeOf ts

/-- Embeds the `collected.join(",")` of the named-tuple display arm; each
entry renders as a quoted name, a colon, and the member's display. -/
def displayJoinN : List (String × Typing) → String
  | [] => ""
  | [(k, t)] => "\"" ++ k ++ "\":" ++ t.display
  | (k, t) :: ts => "\"" ++ k ++ "\":" ++ t.display ++ "," ++ displayJoinN ts
termination_by ts => sizeOf ts

end

/-- True when the type contains no `UnnamedTuple` or `NamedTuple` form
anywhere inside it (the deferred tuple fragment of the spec). -/
def Typing.tupleFree : Typing → Bool
  | .any | .bool | .int | .float | .text | .uuid => true
  | .nullable t => t.tupleFree
  | .homogeneous t => t.tupleFree
  | .unnamedTuple _ => false
  | .namedTuple _ => false

mutual

/-- Modelled from the spec: the type-expression grammar of §4.2 (the pest
grammar file of `crate::parser` is not under `src/`), as a recursive-descent
parser over characters with a fuel bound. One grammar rule builds one
`Typing` constructor, as in `Typing::from_pair` (`src/data/typing.rs` lines
166-206): a leading `?` is a nullable type, `[T]` a homogeneous list,
parenthesized comma-separated members an unnamed tuple, brace-delimited
comma-separated quoted-name/colon/type entries a named tuple, and a bare
word one of the six simple-type keywords — any other bare word is an
"undefined type" error. Returns the parsed unit and the unconsumed input. -/
def parseTyping : Nat → List Char → Except TypingError (Typing × List Char)
  | 0, _ => .error (.parseFail "recursion limit exceeded")
  | fuel + 1, s =>
    match s with
    | [] => .error (.parseFail "expected a type expression")
    | c :: rest =>
      if c = '?' then do
        let (t, r) ← parseTyping fuel rest
        pure (.nullable t, r)
      else if c = '[' then do
        let (t, r) ← parseTyping fuel rest
        match r with
        | ']' :: r2 => pure (.homogeneous t, r2)
        | _ => .error (.parseFail "expected a closing bracket")
      else if c = '(' then
        match rest with
        | ')' :: r2 => pure (.unnamedTuple [], r2)
        | _ => do
          let (ts, r) ← parseTupleItems fuel rest
          match r with
          | ')' :: r2 => pure (.unnamedTuple ts, r2)
          | _ => .error (.parseFail "expected a closing parenthesis")
      else if c = '\x7b' then
        match rest with
        | '\x7d' :: r2 => pure (.namedTuple [], r2)
        | _ => do
          let (ts, r) ← parseNamedItems fuel rest
          match r with
          | '\x7d' :: r2 => pure (.namedTuple ts, r2)
          | _ => .error (.parseFail "expected a closing brace")
      else
        let w := (c :: rest).takeWhile (fun ch => ch.isAlpha)
        let r := (c :: rest).dropWhile (fun ch => ch.isAlpha)
        if w = [] then .error (.parseFail "expected a type expression")
        else if w = "Any".data then pure (.any, r)
        else if w = "Bool".data then pure (.bool, r)
        else if w = "Int".data then pure (.int, r)
        else if w = "Float".data then pure (.float, r)
        else if w = "Text".data then pure (.text, r)
        else if w = "Uuid".data then pure (.uuid, r)
        else .error (.undefinedType (String.mk w))

/-- Modelled from the spec: the comma-separated member list of an unnamed
tuple type, collected in order, short-circuiting on the first failure. -/
def parseTupleItems : Nat → List Char → Except TypingError (List Typing × List Char)
  | 0, _ => .error (.parseFail "recursion limit exceeded")
  | fuel + 1, s => do
    let (t, r) ← parseTyping fuel s
    match r with
    | ',' :: r2 => do
      let (ts, r3) ← parseTupleItems fuel r2
      pure (t :: ts, r3)
    | _ => pure ([t], r)

/-- Modelled from the spec: the comma-separated entry list of a named tuple
type; each entry is a quoted field name, a colon, and a nested type. -/
def parseNamedItems :
    Nat → List Char → Except TypingError (List (String × Typing) × List Char)
  | 0, _ => .error (.parseFail "recursion limit exceeded")
  | fuel + 1, s =>
    match s with
    | '"' :: r0 =>
      let name := r0.takeWhile (fun ch => ch ≠ '"')
      match r0.dropWhile (fun ch => ch ≠ '"') with
      | '"' :: ':' :: r1 => do
        let (t, r) ← parseTyping fuel r1
        match r with
        | ',' :: r2 => do
          let (ts, r3) ← parseNamedItems fuel r2
          pure ((String.mk name, t) :: ts, r3)
        | _ => pure ([(String.mk name, t)], r)
      | _ => .error (.textParseFail "malformed named-tuple field")
    | _ => .error (.textParseFail "expected a quoted field name")

end

/-- Embeds `TryFrom<&str> for Typing`, `src/data/typing.rs` lines 147-154:
run the grammar on the input and build a `Typing` from the first parsed
unit. The parser does not require the input to be fully consumed (spec §9).
The fuel bound of one more than the input length can never be reached,
since every recursion level consumes at least one character. -/
def Typing.tryFromString (s : String) : Except TypingError Typing :=
  match parseTyping (s.length + 1) s.data with
  | .ok (t, _) => .ok t
  | .error e => .error e

/-- Modelled from serde_json (an external dependency, default features): a
JSON number is stored as a non-negative 64-bit integer, a strictly negative
64-bit integer, or a finite 64-bit float. The u64/i64 range invariants are
stated where they matter rather than carried in the type. -/
inductive JNumber where
  | posInt (n : Nat)
  | negInt (i : Int)
  | floatNum (f : F64)
deriving DecidableEq

/-- Modelled from serde_json: `Number::as_i64`. A non-negative stored
integer converts when it fits in i64; a negative stored integer always
converts; a float-stored number never does. -/
def JNumber.asI64 : JNumber → Option Int
  | .posInt n => if n ≤ 2 ^ 63 - 1 then some (n : Int) else none
  | .negInt i => some i
  | .floatNum _ => none

/-- Modelled from serde_json: the lossy u64→f64 cast used by `as_f64` on an
integer-stored number, kept opaque in the float carrier. -/
def F64.ofNat (n : Nat) : F64 := ⟨n % 2 ^ 64⟩

/-- Modelled from serde_json: the lossy i64→f64 cast, kept opaque. -/
def F64.ofInt (i : Int) : F64 := ⟨i.natAbs % 2 ^ 64⟩

/-- Modelled from serde_json: `Number::as_f64`, which succeeds on all three
storage forms of the default configuration. -/
def JNumber.asF64 : JNumber → Option F64
  | .posInt n => some (F64.ofNat n)
  | .negInt i => some (F64.ofInt i)
  | .floatNum f => some f

/-- Modelled from serde_json: `Number::as_u64` — only a non-negative
stored integer converts. -/
def JNumber.asU64 : JNumber → Option Nat
  | .posInt n => some n
  | _ => none

/-- Modelled from serde_json: the display form of a number, used by the
import's lossless-text fallback. With the default number storage that
fallback is unreachable (`as_f64` is total), but the branch is kept to
mirror the source. -/
def JNumber.displayText : JNumber → String
  | .posInt n => toString n
  | .negInt i => toString i
  | .floatNum f => toString f.bits

/-- Modelled from serde_json: `Number::from(i: i64)` stores a non-negative
value as a u64 and a negative one as an i64. -/
def JNumber.ofInt (i : Int) : JNumber :=
  if 0 ≤ i then .posInt i.toNat else .negInt i

/-- Modelled from serde_json: `serde_json::Value`. Objects are modelled as
association lists in iteration order. -/
inductive JsonValue where
  | null
  | bool (b : Bool)
  | num (n : JNumber)
  | str (s : String)
  | arr (elems : List JsonValue)
  | obj (entries : List (String × JsonValue))

mutual

/-- Boolean equality on `JsonValue`, structurally. -/
def JsonValue.beq : JsonValue → JsonValue → Bool
  | .null, .null => true
  | .bool a, .bool b => a == b
  | .num a, .num b => a == b
  | .str a, .str b => a == b
  | .arr xs, .arr ys => JsonValue.beqList xs ys
  | .obj xs, .obj ys => JsonValue.beqObj xs ys
  | _, _ => false
termination_by a => sizeOf a

/-- Boolean equality on lists of `JsonValue`. -/
def JsonValue.beqList : List JsonValue → List JsonValue → Bool
  | [], [] => true
  | x :: xs, y :: ys => JsonValue.beq x y && JsonValue.beqList xs ys
  | _, _ => false
termination_by xs => sizeOf xs

/-- Boolean equality on object entry lists. -/
def JsonValue.beqObj : List (String × JsonValue) → List (String × JsonValue) → Bool
  | [], [] => true
  | (k1, v1) :: xs, (k2, v2) :: ys =>
    k1 == k2 && JsonValue.beq v1 v2 && JsonValue.beqObj xs ys
  | _, _ => false
termination_by xs => sizeOf xs

end

theorem jsonValueBeqStrong : ∀ n,
    (∀ a b : JsonValue, sizeOf a ≤ n → (JsonValue.beq a b = true ↔ a = b)) ∧
    (∀ xs ys : List JsonValue, sizeOf xs ≤ n → (JsonValue.beqList xs ys = true ↔ xs = ys)) ∧
    (∀ xs ys : List (String × JsonValue), sizeOf xs ≤ n →
      (JsonValue.beqObj xs ys = true ↔ xs = ys)) := by
  intro n
  induction n with
  | zero =>
    refine ⟨?_, ?_, ?_⟩
    · intro a b h; cases a <;> simp at h
    · intro xs ys h; cases xs <;> simp at h
    · intro xs ys h; cases xs <;> simp at h
  | succ n ih =>
    obtain ⟨ihV, ihL, ihO⟩ := ih
    refine ⟨?_, ?_, ?_⟩
    · intro a b hsz
      cases a <;> cases b <;>
        first
        | (simp [JsonValue.beq]; done)
        | (rename_i x y
           rw [show JsonValue.beq (.arr x) (.arr y) = JsonValue.beqList x y
                 from by simp [JsonValue.beq],
               ihL x y (by simp at hsz; omega)]
           simp)
        | (rename_i x y
           rw [show JsonValue.beq (.obj x) (.obj y) = JsonValue.beqObj x y
                 from by simp [JsonValue.beq],
               ihO x y (by simp at hsz; omega)]
           simp)
    · intro xs ys hsz
      rcases xs with _ | ⟨x, xs⟩ <;> rcases ys with _ | ⟨y, ys⟩ <;>
        try (simp [JsonValue.beqList]; done)
      simp only [JsonValue.beqList, Bool.and_eq_true]
      rw [ihV x y (by simp at hsz; omega), ihL xs ys (by simp at hsz; omega)]
      simp
    · intro xs ys hsz
      rcases xs with _ | ⟨⟨k1, v1⟩, xs⟩ <;> rcases ys with _ | ⟨⟨k2, v2⟩, ys⟩ <;>
        try (simp [JsonValue.beqObj]; done)
      simp only [JsonValue.beqObj, Bool.and_eq_true]
      rw [ihV v1 v2 (by simp at hsz; omega), ihO xs ys (by simp at hsz; omega)]
      simp [and_assoc]

theorem jsonValueBeqIff (a b : JsonValue) : (JsonValue.beq a b = true) ↔ a = b :=
  (jsonValueBeqStrong (sizeOf a)).1 a b (Nat.le_refl _)

instance : DecidableEq JsonValue := fun a b => decidable_of_iff _ (jsonValueBeqIff a b)

/-- Modelled from the spec (§3) and the variants handled by the JSON
boundary (`src/data/json.rs` lines 60-79): the storage-facing `DataValue`
enum of `src/data/value.rs` (file not in scope): `Null | Bool | Int | Float
| String | Uuid | Bytes | List | DescVal | Bottom | EnId | Keyword |
Timestamp`. The `DescVal` wrapper owns one boxed value; `Bytes` is a byte
sequence; `EnId` wraps a u64; `Keyword`/`Uuid` are carried by their
canonical strings. -/
inductive DataValue where
  | null
  | bool (b : Bool)
  | int (i : Int)
  | float (f : F64)
  | string (s : String)
  | uuid (u : String)
  | bytes (bs : List Nat)
  | list (l : List DataValue)
  | descVal (v : DataValue)
  | bottom
  | enId (e : Nat)
  | keyword (k : String)
  | timestamp (t : Int)

mutual

/-- Boolean equality on `DataValue`, structurally. -/
def DataValue.beq : DataValue → DataValue → Bool
  | .null, .null => true
  | .bool a, .bool b => a == b
  | .int a, .int b => a == b
  | .float a, .float b => a == b
  | .string a, .string b => a == b
  | .uuid a, .uuid b => a == b
  | .bytes a, .bytes b => a == b
  | .list xs, .list ys => DataValue.beqList xs ys
  | .descVal a, .descVal b => DataValue.beq a b
  | .bottom, .bottom => true
  | .enId a, .enId b => a == b
  | .keyword a, .keyword b => a == b
  | .timestamp a, .timestamp b => a == b
  | _, _ => false
termination_by a => sizeOf a

/-- Boolean equality on lists of `DataValue`. -/
def DataValue.beqList : List DataValue → List DataValue → Bool
  | [], [] => true
  | x :: xs, y :: ys => DataValue.beq x y && DataValue.beqList xs ys
  | _, _ => false
termination_by xs => sizeOf xs

end

theorem dataValueBeqStrong : ∀ n,
    (∀ a b : DataValue, sizeOf a ≤ n → (DataValue.beq a b = true ↔ a = b)) ∧
    (∀ xs ys : List DataValue, sizeOf xs ≤ n →
      (DataValue.beqList xs ys = true ↔ xs = ys)) := by
  intro n
  induction n with
  | zero =>
    constructor
    · intro a b h; cases a <;> simp at h
    · intro xs ys h; cases xs <;> simp at h
  | succ n ih =>
    obtain ⟨ihV, ihL⟩ := ih
    constructor
    · intro a b hsz
      cases a <;> cases b <;>
        first
        | (simp [DataValue.beq]; done)
        | (rename_i x y
           rw [show DataValue.beq (.list x) (.list y) = DataValue.beqList x y
                 from by simp [DataValue.beq],
               ihL x y (by simp at hsz; omega)]
           simp)
        | (rename_i x y
           rw [show DataValue.beq (.descVal x) (.descVal y) = DataValue.beq x y
                 from by simp [DataValue.beq],
               ihV x y (by simp at hsz; omega)]
           simp)
    · intro xs ys hsz
      rcases xs with _ | ⟨x, xs⟩ <;> rcases ys with _ | ⟨y, ys⟩ <;>
        try (simp [DataValue.beqList]; done)
      simp only [DataValue.beqList, Bool.and_eq_true]
      rw [ihV x y (by simp at hsz; omega), ihL xs ys (by simp at hsz; omega)]
      simp

theorem dataValueBeqIff (a b : DataValue) : (DataValue.beq a b = true) ↔ a = b :=
  (dataValueBeqStrong (sizeOf a)).1 a b (Nat.le_refl _)

instance : DecidableEq DataValue := fun a b => decidable_of_iff _ (dataValueBeqIff a b)

/-- Embeds `impl From<JsonValue> for DataValue`, `src/data/json.rs` lines
10-33: null, boolean, string and arrays map directly; a number becomes
`Int` when it reads back as an i64, otherwise `Float` when it reads back as
an f64, otherwise a `String` holding its lossless display text; an object
becomes the `List` of its two-element `[key, value]` pairs, never a map. -/
def DataValue.fromJson : JsonValue → DataValue
  | .null => .null
  | .bool b => .bool b
  | .num n =>
    match n.asI64 with
    | some i => .int i
    | none =>
      match n.asF64 with
      | some f => .float f
      | none => .string n.displayText
  | .str s => .string s
  | .arr elems => .list (elems.attach.map fun x => DataValue.fromJson x.val)
  | .obj entries =>
    .list (entries.attach.map fun x =>
      .list [.string x.val.fst, DataValue.fromJson x.val.snd])
termination_by v => sizeOf v
decreasing_by
  · have := List.sizeOf_lt_of_mem x.property
    simp; omega
  · have := List.sizeOf_lt_of_mem x.property
    rcases x with ⟨⟨k, v⟩, hx⟩
    simp_all; omega

/-- Modelled from RFC 4648 as used by the `base64` crate: the standard
alphabet. -/
def base64Alphabet : List Char :=
  "ABCDEFGHIJKLMNOPQRSTUVWXYZabcdefghijklmnopqrstuvwxyz0123456789+/".data

/-- Modelled from RFC 4648: encode a final group of one, two or three
bytes into four characters, padding with `=`. -/
def base64Chunk : List Nat → List Char
  | [b0] =>
    [base64Alphabet.getD (b0 / 4) 'A',
     base64Alphabet.getD (b0 % 4 * 16) 'A', '=', '=']
  | [b0, b1] =>
    [base64Alphabet.getD (b0 / 4) 'A',
     base64Alphabet.getD (b0 % 4 * 16 + b1 / 16) 'A',
     base64Alphabet.getD (b1 % 16 * 4) 'A', '=']
  | [b0, b1, b2] =>
    [base64Alphabet.getD (b0 / 4) 'A',
     base64Alphabet.getD (b0 % 4 * 16 + b1 / 16) 'A',
     base64Alphabet.getD (b1 % 16 * 4 + b2 / 64) 'A',
     base64Alphabet.getD (b2 % 64) 'A']
  | _ => []

/-- Modelled from RFC 4648: `base64::encode` over a byte sequence. -/
def base64Encode : List Nat → List Char
  | [] => []
  | b0 :: b1 :: b2 :: rest => base64Chunk [b0, b1, b2] ++ base64Encode rest
  | bs => base64Chunk bs

/-- Embeds `impl From<DataValue> for JsonValue`, `src/data/json.rs` lines
60-80: `Null` and `Bottom` export as null; `Bool`/`Int`/`Float`/`String`
directly; `Uuid` and `Keyword` as their canonical strings; `Bytes` as a
base64 string; `List` element-wise as an array; `DescVal` transparently as
the export of the wrapped value; `EnId` and `Timestamp` as numbers. -/
def DataValue.toJson : DataValue → JsonValue
  | .null => .null
  | .bool b => .bool b
  | .int i => .num (JNumber.ofInt i)
  | .float f => .num (.floatNum f)
  | .string t => .str t
  | .uuid u => .str u
  | .bytes bs => .str (String.mk (base64Encode bs))
  | .list l => .arr (l.attach.map fun x => DataValue.toJson x.val)
  | .descVal v => DataValue.toJson v
  | .bottom => .null
  | .enId i => .num (.posInt i)
  | .keyword k => .str k
  | .timestamp i => .num (JNumber.ofInt i)
termination_by v => sizeOf v
decreasing_by
  · have := List.sizeOf_lt_of_mem x.property
    simp; omega
  · simp

/-- Modelled from the spec (§3): the attribute id wrapper over a
non-negative 64-bit integer. -/
structure AttrId where
  val : Nat
deriving DecidableEq

/-- Modelled from the spec (§3): a normalized keyword token. The
reservation policy is an external yes/no predicate (spec §1) and enters
the attribute builder as an explicit argument. -/
structure Keyword where
  name : String
deriving DecidableEq

/-- Modelled from the spec (§3, §4.4): the closed cardinality forms. -/
inductive AttributeCardinality where
  | one
  | many
deriving DecidableEq

/-- Modelled from the spec (§3, §4.4): the closed indexing forms — none,
indexed, or a further named mode. -/
inductive AttributeIndex where
  | none
  | indexed
  | unique
deriving DecidableEq

/-- Modelled from the spec (§4.4): parse a cardinality spelling; any
string outside the closed set is rejected, never defaulted. -/
def AttributeCardinality.ofString (s : String) : Option AttributeCardinality :=
  if s = "one" then some .one
  else if s = "many" then some .many
  else none

/-- Modelled from the spec (§4.4): parse an indexing-mode name; any
string outside the closed set is rejected, never defaulted. -/
def AttributeIndex.ofString (s : String) : Option AttributeIndex :=
  if s = "none" then some .none
  else if s = "index" then some .indexed
  else if s = "unique" then some .unique
  else none

/-- Embeds the `Attribute` record of the spec (§3): id, keyword,
cardinality, value type, indexing, history flag. -/
structure Attribute where
  id : AttrId
  keyword : Keyword
  cardinality : AttributeCardinality
  valType : Typing
  indexing : AttributeIndex
  withHistory : Bool
deriving DecidableEq

/-- Embeds `Value::as_object` as used at `src/data/json.rs` line 96. -/
def JsonValue.asObject : JsonValue → Option (List (String × JsonValue))
  | .obj entries => some entries
  | _ => none

/-- Embeds `Value::as_str` of serde_json: only a JSON string converts. -/
def JsonValue.asStr : JsonValue → Option String
  | .str s => some s
  | _ => none

/-- Embeds `Value::as_bool` of serde_json: only a JSON boolean converts. -/
def JsonValue.asBool : JsonValue → Option Bool
  | .bool b => some b
  | _ => none

/-- Embeds `Value::as_u64` of serde_json: only a non-negative
integer-stored number converts. -/
def JsonValue.asU64 : JsonValue → Option Nat
  | .num n => n.asU64
  | _ => none

/-- Embeds `Map::get`: first-match lookup in the object's entry list. -/
def jsonGet (entries : List (String × JsonValue)) (key : String) : Option JsonValue :=
  match entries with
  | [] => none
  | (k, v) :: rest => if k = key then some v else jsonGet rest key

/-- Conversion errors of the attribute/identifier boundary (the `anyhow!`
sites of `src/data/json.rs`), structured: each constructor carries exactly
the field name and/or offending value that the corresponding message
interpolates. -/
inductive ConvError where
  | expectObjectInAttrDef (got : JsonValue)
  | attrIdConv (got : JsonValue)
  | keywordConv (got : JsonValue)
  | missingField (field : String) (inDef : JsonValue)
  | fieldNotString (field : String) (inDef : JsonValue)
  | reservedKeyword (kw : String)
  | badCardinality (got : String)
  | badIndexValue (got : JsonValue)
  | badIndexName (got : String)
  | badHistory (got : JsonValue)
  | typing (e : TypingError)
deriving DecidableEq

/-- Embeds `impl TryFrom<&JsonValue> for Attribute`, `src/data/json.rs`
lines 92-154, in source order: expect an object; `id` optional (default 0)
via the u64 conversion; `keyword` required, must be a string, must not be
reserved; `cardinality` required string in the closed set; `type` required
string fed to the type parser; `index` optional boolean shorthand or mode
name, absent means none; `history` optional boolean, absent means true.
The keyword-reservation predicate is external policy passed as
`isReserved`; the cardinality/index/type field parsers live in
`src/data/attr.rs` (not in scope) and are modelled from the spec (§4.4). -/
def attrFromJson (isReserved : String → Bool) (v : JsonValue) :
    Except ConvError Attribute :=
  match v.asObject with
  | none => .error (.expectObjectInAttrDef v)
  | some map =>
    let idR : Except ConvError AttrId :=
      match jsonGet map "id" with
      | none => .ok ⟨0⟩
      | some jv =>
        match jv.asU64 with
        | none => .error (.attrIdConv jv)
        | some n => .ok ⟨n⟩
    match idR with
    | .error e => .error e
    | .ok id =>
      match jsonGet map "keyword" with
      | none => .error (.missingField "keyword" v)
      | some kjv =>
        match kjv.asStr with
        | none => .error (.keywordConv kjv)
        | some ks =>
          if isReserved ks then .error (.reservedKeyword ks)
          else
            match jsonGet map "cardinality" with
            | none => .error (.missingField "cardinality" v)
            | some cjv =>
              match cjv.asStr with
              | none => .error (.fieldNotString "cardinality" v)
              | some cs =>
                match AttributeCardinality.ofString cs with
                | none => .error (.badCardinality cs)
                | some card =>
                  match jsonGet map "type" with
                  | none => .error (.missingField "type" v)
                  | some tjv =>
                    match tjv.asStr with
                    | none => .error (.fieldNotString "type" v)
                    | some ts =>
                      match Typing.tryFromString ts with
                      | .error e => .error (.typing e)
                      | .ok ty =>
                        let idxR : Except ConvError AttributeIndex :=
                          match jsonGet map "index" with
                          | none => .ok .none
                          | some (JsonValue.bool true) => .ok .indexed
                          | some (JsonValue.bool false) => .ok .none
                          | some ijv =>
                            match ijv.asStr with
                            | none => .error (.badIndexValue ijv)
                            | some s2 =>
                              match AttributeIndex.ofString s2 with
                              | none => .error (.badIndexName s2)
                              | some idx => .ok idx
                        match idxR with
                        | .error e => .error e
                        | .ok indexing =>
                          let histR : Except ConvError Bool :=
                            match jsonGet map "history" with
                            | none => .ok true
                            | some hjv =>
                              match hjv.asBool with
                              | none => .error (.badHistory hjv)
                              | some b => .ok b
                          match histR with
                          | .error e => .error e
                          | .ok hist =>
                            .ok ⟨id, ⟨ks⟩, card, ty, indexing, hist⟩

/-- True exactly on the five scalar declared forms of the spec (§4.3 step
4): `Bool`, `Int`, `Float`, `Text`, `Uuid`. -/
def Typing.isScalar : Typing → Bool
  | .bool | .int | .float | .text | .uuid => true
  | _ => false

/-- True when the value's runtime variant matches the declared scalar
exactly — the acceptance test each `coerce_*` helper implements. -/
def scalarMatches : Typing → Value → Bool
  | .bool, .bool _ => true
  | .int, .int _ => true
  | .float, .float _ => true
  | .text, .text _ => true
  | .uuid, .uuid _ => true
  | _, _ => false

/-- True exactly on the `List` variant of `Value`. -/
def Value.isList : Value → Bool
  | .list _ => true
  | _ => false

/-- True exactly on the `Int` variant of `DataValue`. -/
def DataValue.isInt : DataValue → Bool
  | .int _ => true
  | _ => false

mutual

/-- The JSON-native fragment of `DataValue`: the variants whose export is
the identity JSON shape and whose import direction exists — `Null`,
booleans, i64-range integers, (finite) floats, strings, and lists of such.
The remaining variants (`Uuid`, `Bytes`, `DescVal`, `Bottom`, `EnId`,
`Keyword`, `Timestamp`) export lossily into strings, numbers or null and
have no import direction of their own. -/
def DataValue.jsonNative : DataValue → Bool
  | .null => true
  | .bool _ => true
  | .int i => decide (-(2 ^ 63) ≤ i) && decide (i ≤ 2 ^ 63 - 1)
  | .float _ => true
  | .string _ => true
  | .list l => jsonNativeList l
  | _ => false
termination_by d => sizeOf d

/-- Element-wise `jsonNative` over a list. -/
def jsonNativeList : List DataValue → Bool
  | [] => true
  | v :: vs => v.jsonNative && jsonNativeList vs
termination_by l => sizeOf l

end

/-- Inputs that cannot extend an alphabetic keyword: the empty input or a
non-alphabetic first character. Display forms only ever follow a simple
type keyword with such input. -/
def noKeywordHead : List Char → Bool
  | [] => true
  | c :: _ => !c.isAlpha

theorem strData_append (a b : String) : (a ++ b).data = a.data ++ b.data := rfl

theorem takeWhile_alpha_append (w rest : List Char)
    (hw : w.all (fun c => c.isAlpha) = true) (hr : noKeywordHead rest = true) :
    ((w ++ rest).takeWhile (fun c => c.isAlpha) = w)
    ∧ ((w ++ rest).dropWhile (fun c => c.isAlpha) = rest) := by
  induction w with
  | nil =>
    cases rest with
    | nil => simp
    | cons c cs =>
      simp only [noKeywordHead, Bool.not_eq_true'] at hr
      simp [List.takeWhile_cons, List.dropWhile_cons, hr]
  | cons c w ih =>
    simp only [List.all_cons, Bool.and_eq_true] at hw
    obtain ⟨hc, hw2⟩ := hw
    have h2 := ih hw2
    simp [List.takeWhile_cons, List.dropWhile_cons, hc, h2.1, h2.2]

theorem parseTyping_keyword (fuel : Nat) (c : Char) (w2 rest : List Char)
    (hw : ((c :: w2).all fun ch => ch.isAlpha) = true)
    (hr : noKeywordHead rest = true) :
    parseTyping (fuel + 1) ((c :: w2) ++ rest) =
      (if c :: w2 = "Any".data then .ok (.any, rest)
       else if c :: w2 = "Bool".data then .ok (.bool, rest)
       else if c :: w2 = "Int".data then .ok (.int, rest)
       else if c :: w2 = "Float".data then .ok (.float, rest)
       else if c :: w2 = "Text".data then .ok (.text, rest)
       else if c :: w2 = "Uuid".data then .ok (.uuid, rest)
       else .error (.undefinedType (String.mk (c :: w2)))) := by
  have hc : c.isAlpha = true := by
    simp only [List.all_cons, Bool.and_eq_true] at hw
    exact hw.1
  have h1 : ¬(c = '?') := fun h => by subst h; exact absurd hc (by decide)
  have h2 : ¬(c = '[') := fun h => by subst h; exact absurd hc (by decide)
  have h3 : ¬(c = '(') := fun h => by subst h; exact absurd hc (by decide)
  have h4 : ¬(c = '\x7b') := fun h => by subst h; exact absurd hc (by decide)
  have htk := takeWhile_alpha_append (c :: w2) rest hw hr
  rw [show ((c :: w2) ++ rest) = c :: (w2 ++ rest) from rfl]
  simp only [parseTyping]
  rw [if_neg h1, if_neg h2, if_neg h3, if_neg h4]
  rw [show c :: (w2 ++ rest) = (c :: w2) ++ rest from rfl, htk.1, htk.2]
  simp
  rfl

theorem parse_display_aux :
    ∀ (T : Typing) (fuel : Nat) (rest : List Char),
      T.tupleFree = true → noKeywordHead rest = true → sizeOf T < fuel →
      parseTyping fuel ((T.display).data ++ rest) = .ok (T, rest)
  | .any, fuel, rest, htf, hrest, hfuel => by
    obtain ⟨f, rfl⟩ : ∃ f, fuel = f + 1 := ⟨fuel - 1, by omega⟩
    rw [show Typing.display .any = "Any" from by simp [Typing.display]]
    rw [show ("Any".data : List Char) = 'A' :: "ny".data from by decide]
    rw [parseTyping_keyword f 'A' "ny".data rest (by decide) hrest]
    rw [if_pos (by decide)]
  | .bool, fuel, rest, htf, hrest, hfuel => by
    obtain ⟨f, rfl⟩ : ∃ f, fuel = f + 1 := ⟨fuel - 1, by omega⟩
    rw [show Typing.display .bool = "Bool" from by simp [Typing.display]]
    rw [show ("Bool".data : List Char) = 'B' :: "ool".data from by decide]
    rw [parseTyping_keyword f 'B' "ool".data rest (by decide) hrest]
    rw [if_neg (by decide), if_pos (by decide)]
  | .int, fuel, rest, htf, hrest, hfuel => by
    obtain ⟨f, rfl⟩ : ∃ f, fuel = f + 1 := ⟨fuel - 1, by omega⟩
    rw [show Typing.display .int = "Int" from by simp [Typing.display]]
    rw [show ("Int".data : List Char) = 'I' :: "nt".data from by decide]
    rw [parseTyping_keyword f 'I' "nt".data rest (by decide) hrest]
    rw [if_neg (by decide), if_neg (by decide), if_pos (by decide)]
  | .float, fuel, rest, htf, hrest, hfuel => by
    obtain ⟨f, rfl⟩ : ∃ f, fuel = f + 1 := ⟨fuel - 1, by omega⟩
    rw [show Typing.display .float = "Float" from by simp [Typing.display]]
    rw [show ("Float".data : List Char) = 'F' :: "loat".data from by decide]
    rw [parseTyping_keyword f 'F' "loat".data rest (by decide) hrest]
    rw [if_neg (by decide), if_neg (by decide), if_neg (by decide), if_pos (by decide)]
  | .text, fuel, rest, htf, hrest, hfuel => by
    obtain ⟨f, rfl⟩ : ∃ f, fuel = f + 1 := ⟨fuel - 1, by omega⟩
    rw [show Typing.display .text = "Text" from by simp [Typing.display]]
    rw [show ("Text".data : List Char) = 'T' :: "ext".data from by decide]
    rw [parseTyping_keyword f 'T' "ext".data rest (by decide) hrest]
    rw [if_neg (by decide), if_neg (by decide), if_neg (by decide), if_neg (by decide),
        if_pos (by decide)]
  | .uuid, fuel, rest, htf, hrest, hfuel => by
    obtain ⟨f, rfl⟩ : ∃ f, fuel = f + 1 := ⟨fuel - 1, by omega⟩
    rw [show Typing.display .uuid = "Uuid" from by simp [Typing.display]]
    rw [show ("Uuid".data : List Char) = 'U' :: "uid".data from by decide]
    rw [parseTyping_keyword f 'U' "uid".data rest (by decide) hrest]
    rw [if_neg (by decide), if_neg (by decide), if_neg (by decide), if_neg (by decide),
        if_neg (by decide), if_pos (by decide)]
  | .nullable t, fuel, rest, htf, hrest, hfuel => by
    obtain ⟨f, rfl⟩ : ∃ f, fuel = f + 1 := ⟨fuel - 1, by omega⟩
    have htf2 : t.tupleFree = true := by simpa [Typing.tupleFree] using htf
    have hsz : sizeOf t < f := by
      have h : sizeOf (Typing.nullable t) = 1 + sizeOf t := by simp
      omega
    have ih := parse_display_aux t f rest htf2 hrest hsz
    rw [show Typing.display (.nullable t) = "?" ++ t.display from by simp [Typing.display]]
    rw [show ("?" ++ t.display).data ++ rest = '?' :: ((t.display).data ++ rest) from rfl]
    simp only [parseTyping, if_true]
    rw [ih]
    rfl
  | .homogeneous t, fuel, rest, htf, hrest, hfuel => by
    obtain ⟨f, rfl⟩ : ∃ f, fuel = f + 1 := ⟨fuel - 1, by omega⟩
    have htf2 : t.tupleFree = true := by simpa [Typing.tupleFree] using htf
    have hsz : sizeOf t < f := by
      have h : sizeOf (Typing.homogeneous t) = 1 + sizeOf t := by simp
      omega
    have ih := parse_display_aux t f (']' :: rest) htf2
      (by simp only [noKeywordHead]; decide) hsz
    rw [show Typing.display (.homogeneous t) = "[" ++ t.display ++ "]" from by
          simp [Typing.display]]
    rw [show ("[" ++ t.display ++ "]").data ++ rest
          = '[' :: ((t.display).data ++ (']' :: rest)) from by
        rw [show ("[" ++ t.display ++ "]").data
              = ('[' :: (t.display).data) ++ [']'] from rfl]
        simp]
    simp only [parseTyping, if_true]
    rw [if_neg (by decide), ih]
    rfl
  | .unnamedTuple ts, fuel, rest, htf, hrest, hfuel => by
    simp [Typing.tupleFree] at htf
  | .namedTuple ts, fuel, rest, htf, hrest, hfuel => by
    simp [Typing.tupleFree] at htf
termination_by T _ _ _ _ _ => sizeOf T

theorem display_length_bound :
    ∀ T : Typing, T.tupleFree = true → sizeOf T ≤ ((T.display).data).length
  | .any, _ => by
    rw [show Typing.display .any = "Any" from by simp [Typing.display]]
    have h1 : sizeOf Typing.any = 1 := by simp
    have h2 : ("Any".data).length = 3 := by decide
    omega
  | .bool, _ => by
    rw [show Typing.display .bool = "Bool" from by simp [Typing.display]]
    have h1 : sizeOf Typing.bool = 1 := by simp
    have h2 : ("Bool".data).length = 4 := by decide
    omega
  | .int, _ => by
    rw [show Typing.display .int = "Int" from by simp [Typing.display]]
    have h1 : sizeOf Typing.int = 1 := by simp
    have h2 : ("Int".data).length = 3 := by decide
    omega
  | .float, _ => by
    rw [show Typing.display .float = "Float" from by simp [Typing.display]]
    have h1 : sizeOf Typing.float = 1 := by simp
    have h2 : ("Float".data).length = 5 := by decide
    omega
  | .text, _ => by
    rw [show Typing.display .text = "Text" from by simp [Typing.display]]
    have h1 : sizeOf Typing.text = 1 := by simp
    have h2 : ("Text".data).length = 4 := by decide
    omega
  | .uuid, _ => by
    rw [show Typing.display .uuid = "Uuid" from by simp [Typing.display]]
    have h1 : sizeOf Typing.uuid = 1 := by simp
    have h2 : ("Uuid".data).length = 4 := by decide
    omega
  | .nullable t, htf => by
    have htf2 : t.tupleFree = true := by simpa [Typing.tupleFree] using htf
    have ih := display_length_bound t htf2
    rw [show Typing.display (.nullable t) = "?" ++ t.display from by simp [Typing.display]]
    rw [show ("?" ++ t.display).data = '?' :: (t.display).data from rfl]
    have h1 : sizeOf (Typing.nullable t) = 1 + sizeOf t := by simp
    simp only [List.length_cons]
    omega
  | .homogeneous t, htf => by
    have htf2 : t.tupleFree = true := by simpa [Typing.tupleFree] using htf
    have ih := display_length_bound t htf2
    rw [show Typing.display (.homogeneous t) = "[" ++ t.display ++ "]" from by
          simp [Typing.display]]
    rw [show ("[" ++ t.display ++ "]").data = '[' :: ((t.display).data ++ [']']) from rfl]
    have h1 : sizeOf (Typing.homogeneous t) = 1 + sizeOf t := by simp
    simp only [List.length_cons, List.length_append]
    omega
  | .unnamedTuple ts, htf => by simp [Typing.tupleFree] at htf
  | .namedTuple ts, htf => by simp [Typing.tupleFree] at htf
termination_by T _ => sizeOf T

theorem toJson_list_map (l : List DataValue) :
    DataValue.toJson (.list l) = .arr (l.map DataValue.toJson) := by
  rw [DataValue.toJson.eq_def]
  simp [List.attach_map_val]

theorem fromJson_arr_map (l : List JsonValue) :
    DataValue.fromJson (.arr l) = .list (l.map DataValue.fromJson) := by
  rw [DataValue.fromJson.eq_def]
  simp [List.attach_map_val]

theorem fromJson_num (n : JNumber) :
    DataValue.fromJson (.num n) = (match n.asI64 with
      | some i => .int i
      | none => match n.asF64 with
        | some f => .float f
        | none => .string n.displayText) := by
  rw [DataValue.fromJson.eq_def]

theorem toJson_int (i : Int) :
    DataValue.toJson (.int i) = .num (JNumber.ofInt i) := by
  rw [DataValue.toJson.eq_def]

theorem coerce_identity_strong : ∀ n,
    (∀ (T : Typing) (v w : Value), sizeOf T + sizeOf v ≤ n →
      T.coerce v = .ok w → w = v) ∧
    (∀ (T : Typing) (vs ws : List Value), sizeOf T + sizeOf vs ≤ n →
      coerceElems T vs = .ok ws → ws = vs) := by
  intro n
  induction n with
  | zero =>
    constructor
    · intro T v w h; cases T <;> simp at h
    · intro T vs ws h; cases T <;> simp at h
  | succ n ih =>
    obtain ⟨ihC, ihL⟩ := ih
    constructor
    · intro T v w hsz hc
      rw [Typing.coerce.eq_def] at hc
      by_cases hTany : T = Typing.any
      · subst hTany
        simp at hc
        exact hc.symm
      · rw [if_neg hTany] at hc
        by_cases hvnull : v = Value.null
        · subst hvnull
          by_cases hN : T.isNullableForm = true
          · rw [if_pos rfl, if_pos hN] at hc
            simp at hc
            exact hc.symm
          · rw [if_pos rfl, if_neg hN] at hc
            simp at hc
        · rw [if_neg hvnull] at hc
          cases T with
          | any => exact absurd rfl hTany
          | nullable t =>
            exact ihC t v w (by simp at hsz ⊢; omega) hc
          | bool => cases v <;> simp_all [Typing.coerceBool]
          | int => cases v <;> simp_all [Typing.coerceInt]
          | float => cases v <;> simp_all [Typing.coerceFloat]
          | text => cases v <;> simp_all [Typing.coerceText]
          | uuid => cases v <;> simp_all [Typing.coerceUuid]
          | homogeneous t =>
            cases v with
            | list vs =>
              have hc2 : (match coerceElems t vs with
                | Except.ok ws2 => Except.ok (Value.list ws2)
                | Except.error e => Except.error e) = Except.ok w := hc
              cases hE : coerceElems t vs with
              | ok ws2 =>
                have hws : ws2 = vs := ihL t vs ws2 (by simp at hsz ⊢; omega) hE
                rw [hE] at hc2
                simp at hc2
                rw [← hc2, hws]
              | error e => rw [hE] at hc2; simp at hc2
            | null => exact absurd rfl hvnull
            | bool b => simp at hc
            | int i => simp at hc
            | float f => simp at hc
            | text s => simp at hc
            | uuid u => simp at hc
          | unnamedTuple ts => simp at hc
          | namedTuple ps => simp at hc
    · intro T vs ws hsz hc
      cases vs with
      | nil =>
        rw [coerceElems.eq_def] at hc
        simp at hc
        exact hc
      | cons v rest =>
        rw [coerceElems.eq_def] at hc
        have hc2 : (match T.coerce v with
          | Except.error e => Except.error e
          | Except.ok w2 =>
            match coerceElems T rest with
            | Except.error e => Except.error e
            | Except.ok ws2 => Except.ok (w2 :: ws2)) = Except.ok ws := hc
        cases hv : T.coerce v with
        | error e => rw [hv] at hc2; simp at hc2
        | ok w =>
          rw [hv] at hc2
          cases hr : coerceElems T rest with
          | error e => rw [hr] at hc2; simp at hc2
          | ok ws2 =>
            rw [hr] at hc2
            simp at hc2
            have h1 : w = v := ihC T v w (by simp at hsz ⊢; omega) hv
            have h2 : ws2 = rest := ihL T rest ws2 (by simp at hsz ⊢; omega) hr
            rw [← hc2, h1, h2]

theorem json_roundtrip_strong : ∀ n,
    (∀ d : DataValue, sizeOf d ≤ n → d.jsonNative = true →
      DataValue.fromJson (DataValue.toJson d) = d) ∧
    (∀ l : List DataValue, sizeOf l ≤ n → jsonNativeList l = true →
      (l.map DataValue.toJson).map DataValue.fromJson = l) := by
  intro n
  induction n with
  | zero =>
    constructor
    · intro d h; cases d <;> simp at h
    · intro l h; cases l <;> simp at h
  | succ n ih =>
    obtain ⟨ihD, ihL⟩ := ih
    constructor
    · intro d hsz hn
      cases d with
      | null => rw [DataValue.toJson.eq_def, DataValue.fromJson.eq_def]
      | bool b => rw [DataValue.toJson.eq_def, DataValue.fromJson.eq_def]
      | int i =>
        rw [DataValue.jsonNative.eq_def] at hn
        simp at hn
        rw [toJson_int]
        unfold JNumber.ofInt
        by_cases h0 : 0 ≤ i
        · rw [if_pos h0, fromJson_num]
          simp only [JNumber.asI64]
          rw [if_pos (by omega)]
          simp only []
          congr 1
          omega
        · rw [if_neg h0, fromJson_num]
          simp [JNumber.asI64]
      | float f =>
        rw [show DataValue.toJson (.float f) = .num (.floatNum f) from by
              rw [DataValue.toJson.eq_def]]
        rw [fromJson_num]
        simp [JNumber.asI64, JNumber.asF64]
      | string s => rw [DataValue.toJson.eq_def, DataValue.fromJson.eq_def]
      | list l =>
        rw [toJson_list_map, fromJson_arr_map]
        rw [DataValue.jsonNative.eq_def] at hn
        simp at hn
        rw [ihL l (by simp at hsz; omega) hn]
      | uuid u => rw [DataValue.jsonNative.eq_def] at hn; simp at hn
      | bytes bs => rw [DataValue.jsonNative.eq_def] at hn; simp at hn
      | descVal v => rw [DataValue.jsonNative.eq_def] at hn; simp at hn
      | bottom => rw [DataValue.jsonNative.eq_def] at hn; simp at hn
      | enId e => rw [DataValue.jsonNative.eq_def] at hn; simp at hn
      | keyword k => rw [DataValue.jsonNative.eq_def] at hn; simp at hn
      | timestamp t => rw [DataValue.jsonNative.eq_def] at hn; simp at hn
    · intro l hsz hn
      cases l with
      | nil => simp
      | cons v vs =>
        rw [jsonNativeList.eq_def] at hn
        simp at hn
        simp only [List.map_cons]
        rw [ihD v (by simp at hsz; omega) hn.1, ihL vs (by simp at hsz; omega) hn.2]

/-- C1 (counterexample): the claim says every typing that is not
`Nullable(_)` rejects `Null` with `NotNullViolated`, but the declared type
`Any` — which is not `Nullable(_)` — accepts `Null` through the
unconditional `Any` clause that runs before the null check, so the claim
fails at the concrete input `coerce(Any, Null)`. -/
theorem c1_counterexample :
    Typing.any.isNullableForm = false ∧
    Typing.any.coerce .null = .ok .null ∧
    Typing.any.coerce .null ≠ .error (.typed (.notNullViolated .any)) := by
  have h : Typing.any.coerce .null = .ok .null := by
    rw [Typing.coerce.eq_def]; simp
  exact ⟨rfl, h, by rw [h]; simp⟩

/-- C1 (amended): a `Null` value is accepted exactly when the declared type
is `Nullable(_)` or `Any`: every `Nullable(_)` accepts `Null` as `Null`,
`Any` accepts `Null` unconditionally, and every typing that is neither
`Any` nor `Nullable(_)` fails with `NotNullViolated` citing the declared
type. -/
theorem c1_null_acceptance (T : Typing) :
    (T.isNullableForm = true → T.coerce .null = .ok .null) ∧
    (T = .any → T.coerce .null = .ok .null) ∧
    (T ≠ .any → T.isNullableForm = false →
      T.coerce .null = .error (.typed (.notNullViolated T))) := by
  refine ⟨?_, ?_, ?_⟩
  · intro h
    cases T <;> simp_all [Typing.isNullableForm] <;>
      (rw [Typing.coerce.eq_def]; simp [Typing.isNullableForm])
  · intro h
    subst h
    rw [Typing.coerce.eq_def]; simp
  · intro h1 h2
    cases T <;> simp_all [Typing.isNullableForm] <;>
      (rw [Typing.coerce.eq_def]; simp [Typing.isNullableForm])

/-- C1 (witness): instantiates the amended claim at `coerce(Int, Null)`,
which fails with `NotNullViolated(Int)`. -/
theorem c1_null_acceptance_witness :
    Typing.int.coerce .null = .error (.typed (.notNullViolated .int)) :=
  (c1_null_acceptance Typing.int).2.2 (by simp) rfl

/-- C2: for every declared scalar type (`Bool`, `Int`, `Float`, `Text`,
`Uuid`) and every non-null value, coercion returns the value unchanged when
the runtime variant matches the declared scalar exactly, and otherwise
fails with `TypeMismatch` citing the declared type and the value; in
particular there is no numeric widening, since `scalarMatches` relates
`Int` only to `Int` values and `Float` only to `Float` values. -/
theorem c2_scalar_exact (T : Typing) (v : Value)
    (hT : T.isScalar = true) (hv : v ≠ .null) :
    T.coerce v = if scalarMatches T v then .ok v
      else .error (.typed (.typeMismatch T v)) := by
  cases T <;> simp_all [Typing.isScalar] <;>
    (rw [Typing.coerce.eq_def] <;>
     cases v <;>
       simp_all [scalarMatches, Typing.coerceBool, Typing.coerceInt, Typing.coerceFloat,
         Typing.coerceText, Typing.coerceUuid])

/-- C2 (witness): instantiates the claim at `coerce(Int, Int(3))`. -/
theorem c2_scalar_exact_witness : Typing.int.coerce (.int 3) = .ok (.int 3) := by
  have h := c2_scalar_exact .int (.int 3) rfl (by simp)
  simpa [scalarMatches] using h

/-- C3: for every non-null value, coercing against `Nullable(inner)` equals
coercing against `inner` — the nullability check happens once, not per
recursion level — and, as in the spec's example, the `TypeMismatch` of
`coerce(Nullable(Int), Text("a"))` cites the unwrapped inner type `Int`,
not the wrapper. -/
theorem c3_nullable_unwraps (inner : Typing) (v : Value) (hv : v ≠ .null) :
    (Typing.nullable inner).coerce v = inner.coerce v ∧
    (Typing.nullable .int).coerce (.text "a")
      = .error (.typed (.typeMismatch .int (.text "a"))) := by
  have hstep : ∀ (t2 : Typing) (v2 : Value), v2 ≠ .null →
      (Typing.nullable t2).coerce v2 = t2.coerce v2 := by
    intro t2 v2 hv2
    conv_lhs => rw [Typing.coerce.eq_def]
    simp [hv2]
  refine ⟨hstep inner v hv, ?_⟩
  rw [hstep .int (.text "a") (by simp)]
  rw [Typing.coerce.eq_def]
  simp [Typing.coerceInt]

/-- C3 (witness): instantiates the claim at `Nullable(Int)` and `Int(5)`. -/
theorem c3_nullable_unwraps_witness :
    (Typing.nullable .int).coerce (.int 5) = Typing.int.coerce (.int 5) :=
  (c3_nullable_unwraps .int (.int 5) (by simp)).1

/-- C4: coercion against `Homogeneous(elem)` fails with
`TypeMismatch(Homogeneous(elem), v)` on every non-null non-list value; on a
list it is exactly element-wise coercion rebuilt into a list; element-wise
coercion succeeds with the coerced elements in the original order when
every element coerces, and fails with the first failing element's error,
unmodified, otherwise. -/
theorem c4_homogeneous_elementwise (elem : Typing) :
    (∀ v : Value, v ≠ .null → v.isList = false →
      (Typing.homogeneous elem).coerce v
        = .error (.typed (.typeMismatch (.homogeneous elem) v))) ∧
    (∀ vs : List Value,
      (Typing.homogeneous elem).coerce (.list vs)
        = Except.map Value.list (coerceElems elem vs)) ∧
    (∀ vs ws : List Value,
      List.Forall₂ (fun v w => elem.coerce v = .ok w) vs ws →
      coerceElems elem vs = .ok ws) ∧
    (∀ (pre post : List Value) (bad : Value) (e : CoerceErr),
      (∀ p ∈ pre, ∃ w, elem.coerce p = .ok w) →
      elem.coerce bad = .error e →
      coerceElems elem (pre ++ bad :: post) = .error e) := by
  refine ⟨?_, ?_, ?_, ?_⟩
  · intro v h1 h2
    rw [Typing.coerce.eq_def]
    cases v <;> simp_all [Value.isList]
  · intro vs
    rw [Typing.coerce.eq_def]
    cases hE : coerceElems elem vs <;> simp [hE, Except.map]
  · intro vs ws h
    induction h with
    | nil => rw [coerceElems.eq_def]
    | cons hhd htl ih =>
      rw [coerceElems.eq_def]
      simp [hhd, ih]
  · intro pre post bad e hpre hbad
    induction pre with
    | nil =>
      rw [coerceElems.eq_def]
      simp [hbad]
    | cons p pre ih =>
      obtain ⟨w, hw⟩ := hpre p (by simp)
      rw [coerceElems.eq_def]
      simp [hw, ih (fun q hq => hpre q (by simp [hq]))]

/-- C4 (witness): instantiates the claim's mismatch clause at the non-list
value `Int(7)` against `Homogeneous(Int)`. -/
theorem c4_homogeneous_elementwise_witness :
    (Typing.homogeneous .int).coerce (.int 7)
      = .error (.typed (.typeMismatch (.homogeneous .int) (.int 7))) :=
  (c4_homogeneous_elementwise .int).1 (.int 7) (by simp) rfl

/-- C5: for every typing containing no tuple form, parsing the canonical
display string yields exactly the same typing back. The parser here is
modelled from the spec's grammar (§4.2), because the pest grammar file is
not under `src/`; the display side embeds the source `Display` impl. -/
theorem c5_parse_display_roundtrip (T : Typing) (h : T.tupleFree = true) :
    Typing.tryFromString T.display = .ok T := by
  unfold Typing.tryFromString
  have hb := display_length_bound T h
  have haux := parse_display_aux T ((T.display).length + 1) [] h rfl (by
    rw [show (T.display).length = ((T.display).data).length from rfl]
    omega)
  rw [List.append_nil] at haux
  rw [haux]

/-- C5 (witness): instantiates the round trip at `?[Int]`. -/
theorem c5_parse_display_roundtrip_witness :
    Typing.tryFromString (Typing.display (.nullable (.homogeneous .int)))
      = .ok (.nullable (.homogeneous .int)) :=
  c5_parse_display_roundtrip (.nullable (.homogeneous .int)) rfl

/-- C6 (counterexample): the claim says the export→import round trip holds
for every `DataValue` variant except the object asymmetry, but a `Uuid`
value exports to a plain JSON string, which imports back as a `String`
value — the round trip fails on the `Uuid` variant (and likewise on
`Bytes`, `DescVal`, `Bottom`, `EnId`, `Keyword`, `Timestamp`, whose export
forms import as other variants). -/
theorem c6_roundtrip_counterexample :
    DataValue.fromJson
        (DataValue.toJson (.uuid "00000000-0000-0000-0000-000000000000"))
      = .string "00000000-0000-0000-0000-000000000000" ∧
    DataValue.fromJson
        (DataValue.toJson (.uuid "00000000-0000-0000-0000-000000000000"))
      ≠ .uuid "00000000-0000-0000-0000-000000000000" := by
  have h1 : DataValue.toJson (.uuid "00000000-0000-0000-0000-000000000000")
      = .str "00000000-0000-0000-0000-000000000000" := by
    rw [DataValue.toJson.eq_def]
  have h2 : DataValue.fromJson (.str "00000000-0000-0000-0000-000000000000")
      = .string "00000000-0000-0000-0000-000000000000" := by
    rw [DataValue.fromJson.eq_def]
  exact ⟨by rw [h1, h2], by rw [h1, h2]; simp⟩

/-- C6 (amended): the export→import round trip holds exactly on the
JSON-native fragment of `DataValue` — `Null`, `Bool`, i64-range `Int`,
`Float`, `String`, and `List` of such values; the variants with no import
direction of their own (`Uuid`, `Bytes`, `DescVal`, `Bottom`, `EnId`,
`Keyword`, `Timestamp`) export lossily and are excluded, alongside the
object→pair-list import direction which has no corresponding export. -/
theorem c6_roundtrip_native (d : DataValue) (h : d.jsonNative = true) :
    DataValue.fromJson (DataValue.toJson d) = d :=
  (json_roundtrip_strong (sizeOf d)).1 d (Nat.le_refl _) h

/-- C6 (witness): instantiates the amended round trip at the list value
`[Bool(true), String("x")]`. -/
theorem c6_roundtrip_native_witness :
    DataValue.fromJson (DataValue.toJson (.list [.bool true, .string "x"]))
      = .list [.bool true, .string "x"] :=
  c6_roundtrip_native (.list [.bool true, .string "x"])
    (by simp [DataValue.jsonNative, jsonNativeList])

/-- C7 (counterexample): the claim says every integral JSON number imports
as `Int`, but the integral number 2^63 = 9223372036854775808 (stored by
the JSON layer as a u64) does not convert to an i64, so the import turns
it into a `Float` through the f64 fallback rather than an `Int`. -/
theorem c7_number_counterexample :
    (JNumber.posInt (2 ^ 63)).asI64 = none ∧
    DataValue.fromJson (.num (.posInt (2 ^ 63))) = .float (F64.ofNat (2 ^ 63)) ∧
    (DataValue.fromJson (.num (.posInt (2 ^ 63)))).isInt = false := by
  have hn : (JNumber.posInt (2 ^ 63)).asI64 = none := by
    simp only [JNumber.asI64]
    rw [if_neg (by norm_num)]
  have h2 : DataValue.fromJson (.num (.posInt (2 ^ 63)))
      = .float (F64.ofNat (2 ^ 63)) := by
    rw [fromJson_num, hn]
    simp [JNumber.asF64]
  exact ⟨hn, h2, by rw [h2]; rfl⟩

/-- C7 (amended): importing a JSON number yields `Int` exactly when the
number reads back as an i64 — every negative stored integer and every
non-negative stored integer up to i64::MAX; an integral number beyond the
i64 range falls through to the f64 reading and becomes `Float`, as does
every float-stored number; the lossless-text `String` fallback is reached
only when a number converts to neither i64 nor f64, which the default
number storage never produces. -/
theorem c7_number_import (n : JNumber) :
    (∀ i : Int, n = .negInt i → DataValue.fromJson (.num n) = .int i) ∧
    (∀ m : Nat, n = .posInt m → m ≤ 2 ^ 63 - 1 →
      DataValue.fromJson (.num n) = .int m) ∧
    (∀ m : Nat, n = .posInt m → 2 ^ 63 - 1 < m →
      DataValue.fromJson (.num n) = .float (F64.ofNat m)) ∧
    (∀ f : F64, n = .floatNum f → DataValue.fromJson (.num n) = .float f) := by
  refine ⟨?_, ?_, ?_, ?_⟩
  · intro i h
    subst h
    rw [fromJson_num]
    simp [JNumber.asI64]
  · intro m h hm
    subst h
    rw [fromJson_num]
    simp only [JNumber.asI64]
    rw [if_pos (by omega)]
  · intro m h hm
    subst h
    rw [fromJson_num]
    simp only [JNumber.asI64]
    rw [if_neg (by omega)]
    simp [JNumber.asF64]
  · intro f h
    subst h
    rw [fromJson_num]
    simp [JNumber.asI64, JNumber.asF64]

/-- C7 (witness): instantiates the amended claim at the negative stored
integer −3, which imports as `Int(-3)`. -/
theorem c7_number_import_witness :
    DataValue.fromJson (.num (.negInt (-3))) = .int (-3) :=
  (c7_number_import (.negInt (-3))).1 (-3) rfl

/-- C8: building an `Attribute` from a JSON definition fails with an error
naming the field when `keyword` is missing; fails when the keyword is
reserved under the external reservation predicate; fails naming the
received spelling when `cardinality` is a string outside the closed set;
and on success an absent `index` field yields indexing `None` while an
absent `history` field yields `with_history = true`. -/
theorem c8_attr_validation (r : String → Bool) (o : List (String × JsonValue)) :
    (jsonGet o "id" = none → jsonGet o "keyword" = none →
      attrFromJson r (.obj o) = .error (.missingField "keyword" (.obj o))) ∧
    (∀ s, jsonGet o "id" = none → jsonGet o "keyword" = some (.str s) → r s = true →
      attrFromJson r (.obj o) = .error (.reservedKeyword s)) ∧
    (∀ s c, jsonGet o "id" = none → jsonGet o "keyword" = some (.str s) → r s = false →
      jsonGet o "cardinality" = some (.str c) → AttributeCardinality.ofString c = none →
      attrFromJson r (.obj o) = .error (.badCardinality c)) ∧
    (∀ a, attrFromJson r (.obj o) = .ok a → jsonGet o "index" = none →
      a.indexing = AttributeIndex.none) ∧
    (∀ a, attrFromJson r (.obj o) = .ok a → jsonGet o "history" = none →
      a.withHistory = true) := by
  refine ⟨?_, ?_, ?_, ?_, ?_⟩
  · intro h1 h2
    simp [attrFromJson, JsonValue.asObject, h1, h2]
  · intro s h1 h2 h3
    simp [attrFromJson, JsonValue.asObject, JsonValue.asStr, h1, h2, h3]
  · intro s c h1 h2 h3 h4 h5
    simp [attrFromJson, JsonValue.asObject, JsonValue.asStr, h1, h2, h3, h4, h5]
  · intro a ha hidx
    simp only [attrFromJson, JsonValue.asObject, hidx] at ha
    repeat' split at ha
    all_goals simp_all
    all_goals (cases ha; rfl)
  · intro a ha hhist
    simp only [attrFromJson, JsonValue.asObject, hhist] at ha
    repeat' split at ha
    all_goals simp_all
    all_goals (cases ha; rfl)

/-- C8 (witness): instantiates the missing-`keyword` clause at a definition
holding only a `cardinality` field. -/
theorem c8_attr_validation_witness :
    attrFromJson (fun _ => false) (.obj [("cardinality", .str "one")])
      = .error (.missingField "keyword" (.obj [("cardinality", .str "one")])) :=
  (c8_attr_validation (fun _ => false) [("cardinality", .str "one")]).1
    (by simp [jsonGet]) (by simp [jsonGet])

/-- C9: for every non-null value, coercion against an `UnnamedTuple` or
`NamedTuple` declared shape is the unconditional internal failure (the
`todo!()` panic), never a typed error and never a silent success. -/
theorem c9_tuple_panics (ts : List Typing) (ps : List (String × Typing))
    (v : Value) (hv : v ≠ .null) :
    (Typing.unnamedTuple ts).coerce v = .error .panicked ∧
    (Typing.namedTuple ps).coerce v = .error .panicked := by
  constructor <;> (rw [Typing.coerce.eq_def]; simp [hv])

/-- C9 (witness): instantiates the claim at the empty unnamed tuple shape
and the value `Int(0)`. -/
theorem c9_tuple_panics_witness :
    (Typing.unnamedTuple []).coerce (.int 0) = .error .panicked :=
  (c9_tuple_panics [] [] (.int 0) (by simp)).1

/-- C10: coercion never transforms a value — whenever `coerce` returns
`Ok(w)`, the returned value `w` is the input value itself, including
element-wise through homogeneous lists. -/
theorem c10_coerce_identity (T : Typing) (v w : Value) (h : T.coerce v = .ok w) :
    w = v :=
  (coerce_identity_strong (sizeOf T + sizeOf v)).1 T v w (Nat.le_refl _) h

/-- C10 (witness): instantiates the claim at `coerce(Int, Int(3))`, whose
successful result is the input value. -/
theorem c10_coerce_identity_witness :
    Typing.int.coerce (.int 3) = .ok (.int 3) ∧ (Value.int 3) = (Value.int 3) := by
  have h : Typing.int.coerce (.int 3) = .ok (.int 3) := by
    rw [Typing.coerce.eq_def]
    simp [Typing.coerceInt]
  exact ⟨h, c10_coerce_identity .int (.int 3) (.int 3) h⟩

end Cozo
